import Mathlib

/-!
Verification of the BLS benchmark harness (`src/rust/src/main.rs`).

The development shallowly embeds the harness: machine integers become `Nat`
with explicit `% 2^w` where wrap-around matters, byte buffers become
`List Nat`, the external BLS primitive becomes an abstract boolean predicate
supplied as a parameter, the thread-local RNG becomes an abstract stream of
draws, and `Instant::now()` becomes an abstract clock trace `ts : Nat → Nat`
indexed by the order of the calls.  Rust panics (array index out of bounds,
`%` by zero, a failed `assert!`) are modelled as explicit abort outcomes.
-/

/-- Little-endian byte encoding of a `u64` as written by
`LittleEndian::write_u64`: byte `i` is `n / 256^i % 256` for `i < 8`.
A value already below `2^64` is encoded exactly; larger `Nat`s truncate,
mirroring the fixed 64-bit width. -/
def leBytes8 (n : Nat) : List Nat :=
  (List.range 8).map fun i => n / 256 ^ i % 256

/-- `AttestationData` from the source: two 32-byte roots are total maps out of
`Fin 32` (the Rust `[u8; 32]`), the integer fields are `u64` values. -/
structure AttestationData where
  slot : Nat
  index : Nat
  beacon_block_root : Fin 32 → Nat
  source_epoch : Nat
  source_root : Fin 32 → Nat
  target_epoch : Nat
  target_root : Fin 32 → Nat

/-- `AttestationData::serialize`: the 128-byte buffer built by successive
`extend_from_slice` calls, in source order. -/
def AttestationData.serialize (d : AttestationData) : List Nat :=
  leBytes8 d.slot ++
    (leBytes8 d.index ++
      (List.ofFn d.beacon_block_root ++
        (leBytes8 d.source_epoch ++
          (List.ofFn d.source_root ++
            (leBytes8 d.target_epoch ++ List.ofFn d.target_root)))))

/-- The simulated batch verification inlined in
`run_batch_verification_benchmark`: `batchSize` sequential single-item
verifications over indices `(start + i) % pool.length`, breaking out on the
first failure.  The second component is the trace of pool indices actually
verified, in order, making the short-circuit observable.  Recursion shifts
the start index, so the call at offset `i` uses index `(start + i) %
pool.length` exactly as the source's `(batch_start + i) % attestations.len()`. -/
def verifyBatchSimulated {α : Type} [Inhabited α] (ver : α → Bool)
    (pool : List α) : Nat → Nat → Bool × List Nat
  | _, 0 => (true, [])
  | s, n + 1 =>
    let idx := s % pool.length
    if ver (pool.getD idx default) then
      let r := verifyBatchSimulated ver pool (s + 1) n
      (r.1, idx :: r.2)
    else (false, [idx])

/-- Outcome of a benchmark loop.  The Rust loops either run out of our
explicit fuel (`fuelOut`, never the case for the hypotheses we use), panic on
indexing with a zero-length pool (`idxPanic`, the `% 0` remainder panic),
abort on a failed `assert!` after an unsuccessful verification
(`assertFail`), or return the completed count (`finished`).  Aborting
constructors carry the count accumulated so far, which the process never
reports. -/
inductive BenchOut where
  | fuelOut : BenchOut
  | idxPanic (count : Nat) : BenchOut
  | assertFail (count : Nat) : BenchOut
  | finished (count : Nat) : BenchOut
deriving DecidableEq

/-- The timed loop of `run_verification_benchmark`.  `ts k` is the value of
the `k`-th call to `Instant::now()` (call 0 computes the deadline), so the
check before iteration `count` (0-based verification counter) reads
`ts (count + 1)`.  Each iteration verifies `pool[count % pool.length]` and
increments the count by one; a failed verification hits the `assert!`.  The
second component is the trace of pool indices verified, in order. -/
def runVerifLoop {α : Type} [Inhabited α] (ver : α → Bool) (pool : List α)
    (ts : Nat → Nat) (endTime : Nat) : Nat → Nat → BenchOut × List Nat
  | 0, _ => (.fuelOut, [])
  | fuel + 1, count =>
    if ts (count + 1) < endTime then
      if pool.length = 0 then (.idxPanic count, [])
      else if ver (pool.getD (count % pool.length) default) then
        let r := runVerifLoop ver pool ts endTime fuel (count + 1)
        (r.1, count % pool.length :: r.2)
      else (.assertFail count, [count % pool.length])
    else (.finished count, [])

/-- `run_verification_benchmark`: deadline computed once as
`ts 0 + duration_seconds`, then the loop with counter starting at 0. -/
def run_verification_benchmark {α : Type} [Inhabited α] (ver : α → Bool)
    (pool : List α) (ts : Nat → Nat) (duration_seconds fuel : Nat) :
    BenchOut × List Nat :=
  runVerifLoop ver pool ts (ts 0 + duration_seconds) fuel 0

/-- The timed loop of `run_batch_verification_benchmark`.  `k` counts loop
iterations (each makes one clock check, reading `ts (k + 1)`), `count` is the
accumulated verification count (the source keeps `count` and
`total_verifications` in lockstep, both advancing by `batch_size` per batch,
so one counter models both).  Each iteration computes
`batch_start = count % pool.length` (the `% 0` panic on an empty pool),
runs the simulated batch, and asserts that it succeeded. -/
def runBatchLoop {α : Type} [Inhabited α] (ver : α → Bool) (pool : List α)
    (ts : Nat → Nat) (endTime batch_size : Nat) :
    Nat → Nat → Nat → BenchOut × List Nat
  | 0, _, _ => (.fuelOut, [])
  | fuel + 1, k, count =>
    if ts (k + 1) < endTime then
      if pool.length = 0 then (.idxPanic count, [])
      else
        let b := verifyBatchSimulated ver pool (count % pool.length) batch_size
        if b.1 then
          let r := runBatchLoop ver pool ts endTime batch_size fuel (k + 1)
            (count + batch_size)
          (r.1, b.2 ++ r.2)
        else (.assertFail count, b.2)
    else (.finished count, [])

/-- `run_batch_verification_benchmark`: deadline computed once as
`ts 0 + duration_seconds`, iteration counter and verification count both 0. -/
def run_batch_verification_benchmark {α : Type} [Inhabited α]
    (ver : α → Bool) (pool : List α) (ts : Nat → Nat)
    (duration_seconds batch_size fuel : Nat) : BenchOut × List Nat :=
  runBatchLoop ver pool ts (ts 0 + duration_seconds) batch_size fuel 0 0

/-- Expected verification trace of `m` successful batches of size `bs`
starting at accumulated count `start`: batch `j` verifies the indices
`(start + bs*j + i) % len` for `i < bs`. -/
def batchTrace (len bs start m : Nat) : List Nat :=
  (List.range m).flatMap fun j =>
    (List.range bs).map fun i => (start + bs * j + i) % len

/-- `generate_random_attestation`: the thread-local RNG is abstracted as a
stream `g : Nat → Nat` of raw draws in the order the source makes them:
draws 0..31, 32..63 and 64..95 fill the three 32-byte roots (each draw
reduced `% 256` as a byte), then the struct literal draws the `u64` values
slot (draw 96), index (draw 97, which the source reduces `% 65536`),
source epoch (draw 98) and target epoch (draw 99), each reduced `% 2^64`
as a `u64`. -/
def generate_random_attestation (g : Nat → Nat) : AttestationData where
  slot := g 96 % 2 ^ 64
  index := g 97 % 2 ^ 64 % 65536
  beacon_block_root := fun i => g i.val % 256
  source_epoch := g 98 % 2 ^ 64
  source_root := fun i => g (32 + i.val) % 256
  target_epoch := g 99 % 2 ^ 64
  target_root := fun i => g (64 + i.val) % 256

/-- `calculate_stats` over exact rationals (idealizing `f64` on NaN-free,
machine-representable data).  The mean is the sum divided by the length; the
samples are sorted ascending (`sort_by` with `partial_cmp`, a total
ascending order on NaN-free values; the ascending reordering of a list of
values is unique, so the choice of sorting algorithm is immaterial and an
insertion sort models the library sort); for even length the median averages
`sorted[len/2 - 1]` and `sorted[len/2]` — for `len = 0` the `usize`
subtraction `len/2 - 1` underflows and the indexing panics, modelled by the
`none` branch on `sorted.length / 2 = 0` — and for odd length the median is
`sorted[len/2]`; the returned third component is the population variance
(the source returns its square root as `std_dev`, which the variance
determines).  A `none` result models a Rust panic.  On the empty input the
rational division by zero in the mean yields the junk value 0 where `f64`
yields NaN, but the function aborts at the median indexing before any
result is returned, so that value never escapes. -/
def calculate_stats (results : List ℚ) : Option (ℚ × ℚ × ℚ) :=
  let mean : ℚ := results.sum / (results.length : ℚ)
  let sorted := results.insertionSort (· ≤ ·)
  let median? : Option ℚ :=
    if sorted.length % 2 = 0 then
      if sorted.length / 2 = 0 then none
      else
        match sorted[sorted.length / 2 - 1]?, sorted[sorted.length / 2]? with
        | some a, some b => some ((a + b) / 2)
        | _, _ => none
    else sorted[sorted.length / 2]?
  match median? with
  | none => none
  | some median =>
    some (mean, median,
      (results.map fun v => (mean - v) * (mean - v)).sum /
        (results.length : ℚ))

theorem leBytes8_length (n : Nat) : (leBytes8 n).length = 8 := by
  simp [leBytes8]

theorem extract_seg {pre mid post : List Nat} {a b : Nat}
    (ha : pre.length = a) (hb : mid.length = b) :
    ((pre ++ (mid ++ post)).drop a).take b = mid := by
  subst ha
  subst hb
  rw [List.drop_left, List.take_left]

theorem leBytes8_decode (n : Nat) :
    (leBytes8 n).foldr (fun b acc => b + 256 * acc) 0 = n % 2 ^ 64 := by
  have h8 : List.range 8 = [0, 1, 2, 3, 4, 5, 6, 7] := rfl
  simp only [leBytes8, h8, List.map_cons, List.map_nil, List.foldr_cons,
    List.foldr_nil]
  norm_num
  omega

/-- Claim C1: `serialize` always returns exactly 128 bytes, laid out as the
little-endian concatenation slot(8) · index(8) · beaconBlockRoot(32) ·
sourceEpoch(8) · sourceRoot(32) · targetEpoch(8) · targetRoot(32), with each
8-byte integer segment decoding back (little-endian) to the field value
modulo 2^64.  The function is a total Lean function, hence pure and
deterministic, and never fails. -/
theorem serialize_layout (d : AttestationData) :
    d.serialize.length = 128 ∧
    d.serialize.take 8 = leBytes8 d.slot ∧
    (d.serialize.drop 8).take 8 = leBytes8 d.index ∧
    (d.serialize.drop 16).take 32 = List.ofFn d.beacon_block_root ∧
    (d.serialize.drop 48).take 8 = leBytes8 d.source_epoch ∧
    (d.serialize.drop 56).take 32 = List.ofFn d.source_root ∧
    (d.serialize.drop 88).take 8 = leBytes8 d.target_epoch ∧
    (d.serialize.drop 96).take 32 = List.ofFn d.target_root ∧
    ((d.serialize.take 8).foldr (fun b acc => b + 256 * acc) 0 =
      d.slot % 2 ^ 64) ∧
    (((d.serialize.drop 8).take 8).foldr (fun b acc => b + 256 * acc) 0 =
      d.index % 2 ^ 64) := by
  have hslot : d.serialize.take 8 = leBytes8 d.slot := by
    have := @extract_seg ([] : List Nat) (leBytes8 d.slot)
      (leBytes8 d.index ++
        (List.ofFn d.beacon_block_root ++
          (leBytes8 d.source_epoch ++
            (List.ofFn d.source_root ++
              (leBytes8 d.target_epoch ++ List.ofFn d.target_root)))))
      0 8 rfl (leBytes8_length d.slot)
    simpa [AttestationData.serialize] using this
  refine ⟨?_, hslot, ?_, ?_, ?_, ?_, ?_, ?_, ?_, ?_⟩
  · simp [AttestationData.serialize, leBytes8]
  · have h : d.serialize =
        leBytes8 d.slot ++
          (leBytes8 d.index ++
            (List.ofFn d.beacon_block_root ++
              (leBytes8 d.source_epoch ++
                (List.ofFn d.source_root ++
                  (leBytes8 d.target_epoch ++ List.ofFn d.target_root))))) := rfl
    rw [h]
    exact extract_seg (leBytes8_length d.slot) (leBytes8_length d.index)
  · have h : d.serialize =
        (leBytes8 d.slot ++ leBytes8 d.index) ++
          (List.ofFn d.beacon_block_root ++
            (leBytes8 d.source_epoch ++
              (List.ofFn d.source_root ++
                (leBytes8 d.target_epoch ++ List.ofFn d.target_root)))) := by
      simp [AttestationData.serialize, List.append_assoc]
    rw [h]
    exact extract_seg (by simp [leBytes8]) (List.length_ofFn _)
  · have h : d.serialize =
        (leBytes8 d.slot ++ leBytes8 d.index ++ List.ofFn d.beacon_block_root) ++
          (leBytes8 d.source_epoch ++
            (List.ofFn d.source_root ++
              (leBytes8 d.target_epoch ++ List.ofFn d.target_root))) := by
      simp [AttestationData.serialize, List.append_assoc]
    rw [h]
    exact extract_seg (by simp [leBytes8]) (leBytes8_length d.source_epoch)
  · have h : d.serialize =
        (leBytes8 d.slot ++ leBytes8 d.index ++ List.ofFn d.beacon_block_root ++
            leBytes8 d.source_epoch) ++
          (List.ofFn d.source_root ++
            (leBytes8 d.target_epoch ++ List.ofFn d.target_root)) := by
      simp [AttestationData.serialize, List.append_assoc]
    rw [h]
    exact extract_seg (by simp [leBytes8]) (List.length_ofFn _)
  · have h : d.serialize =
        (leBytes8 d.slot ++ leBytes8 d.index ++ List.ofFn d.beacon_block_root ++
            leBytes8 d.source_epoch ++ List.ofFn d.source_root) ++
          (leBytes8 d.target_epoch ++ List.ofFn d.target_root) := by
      simp [AttestationData.serialize, List.append_assoc]
    rw [h]
    exact extract_seg (by simp [leBytes8]) (leBytes8_length d.target_epoch)
  · have h : d.serialize =
        (leBytes8 d.slot ++ leBytes8 d.index ++ List.ofFn d.beacon_block_root ++
            leBytes8 d.source_epoch ++ List.ofFn d.source_root ++
            leBytes8 d.target_epoch) ++
          (List.ofFn d.target_root ++ ([] : List Nat)) := by
      simp [AttestationData.serialize, List.append_assoc]
    rw [h]
    exact extract_seg (by simp [leBytes8]) (List.length_ofFn _)
  · rw [hslot]
    exact leBytes8_decode d.slot
  · have h : d.serialize =
        leBytes8 d.slot ++
          (leBytes8 d.index ++
            (List.ofFn d.beacon_block_root ++
              (leBytes8 d.source_epoch ++
                (List.ofFn d.source_root ++
                  (leBytes8 d.target_epoch ++ List.ofFn d.target_root))))) := rfl
    rw [h, extract_seg (leBytes8_length d.slot) (leBytes8_length d.index)]
    exact leBytes8_decode d.index

theorem verifyBatchSimulated_true_iff {α : Type} [Inhabited α]
    (ver : α → Bool) (pool : List α) :
    ∀ (n s : Nat),
      ((verifyBatchSimulated ver pool s n).1 = true ↔
        ∀ i < n, ver (pool.getD ((s + i) % pool.length) default) = true) := by
  intro n
  induction n with
  | zero => intro s; simp [verifyBatchSimulated]
  | succ n ih =>
    intro s
    by_cases hv : ver (pool.getD (s % pool.length) default) = true
    · simp only [verifyBatchSimulated, hv, if_true]
      constructor
      · intro h i hi
        rcases Nat.eq_zero_or_pos i with h0 | hpos
        · simpa [h0] using hv
        · have hi' : i - 1 < n := by omega
          have := ((ih (s + 1)).mp h) (i - 1) hi'
          have harith : s + 1 + (i - 1) = s + i := by omega
          rwa [harith] at this
      · intro h
        refine (ih (s + 1)).mpr ?_
        intro i hi
        have := h (i + 1) (by omega)
        have harith : s + (i + 1) = s + 1 + i := by omega
        rwa [harith] at this
    · simp only [verifyBatchSimulated, hv, if_false]
      constructor
      · intro h; exact absurd h (by simp)
      · intro h
        exact absurd (by simpa using h 0 (by omega)) hv

theorem verifyBatchSimulated_trace_all {α : Type} [Inhabited α]
    (ver : α → Bool) (pool : List α) :
    ∀ (n s : Nat),
      (∀ i < n, ver (pool.getD ((s + i) % pool.length) default) = true) →
      verifyBatchSimulated ver pool s n =
        (true, (List.range n).map fun i => (s + i) % pool.length) := by
  intro n
  induction n with
  | zero => intro s _; simp [verifyBatchSimulated]
  | succ n ih =>
    intro s h
    have hv : ver (pool.getD (s % pool.length) default) = true := by
      simpa using h 0 (by omega)
    have hrest : ∀ i < n,
        ver (pool.getD ((s + 1 + i) % pool.length) default) = true := by
      intro i hi
      have := h (i + 1) (by omega)
      have harith : s + (i + 1) = s + 1 + i := by omega
      rwa [harith] at this
    simp only [verifyBatchSimulated, hv, if_true, ih (s + 1) hrest,
      Prod.mk.injEq]
    refine ⟨trivial, ?_⟩
    rw [List.range_succ_eq_map]
    simp only [List.map_cons, List.map_map]
    congr 1
    apply List.map_congr_left
    intro i _
    show (s + 1 + i) % pool.length = (s + (i + 1)) % pool.length
    have harith : s + 1 + i = s + (i + 1) := by omega
    rw [harith]

theorem verifyBatchSimulated_shortcircuit {α : Type} [Inhabited α]
    (ver : α → Bool) (pool : List α) :
    ∀ (n s j : Nat), j < n →
      (∀ i < j, ver (pool.getD ((s + i) % pool.length) default) = true) →
      ver (pool.getD ((s + j) % pool.length) default) = false →
      verifyBatchSimulated ver pool s n =
        (false, (List.range (j + 1)).map fun i => (s + i) % pool.length) := by
  intro n
  induction n with
  | zero => intro s j hj; omega
  | succ n ih =>
    intro s j hj hgood hbad
    rcases Nat.eq_zero_or_pos j with h0 | hpos
    · subst h0
      have hv : ver (pool.getD (s % pool.length) default) = false := by
        have h := hbad
        rwa [Nat.add_zero] at h
      simp only [verifyBatchSimulated, hv, Bool.false_eq_true, if_false]
      simp [List.range_succ]
    · have hv : ver (pool.getD (s % pool.length) default) = true := by
        simpa using hgood 0 hpos
      have hgood' : ∀ i < j - 1,
          ver (pool.getD ((s + 1 + i) % pool.length) default) = true := by
        intro i hi
        have := hgood (i + 1) (by omega)
        have harith : s + (i + 1) = s + 1 + i := by omega
        rwa [harith] at this
      have hbad' :
          ver (pool.getD ((s + 1 + (j - 1)) % pool.length) default) = false := by
        have harith : s + 1 + (j - 1) = s + j := by omega
        rwa [harith]
      have hrec := ih (s + 1) (j - 1) (by omega) hgood' hbad'
      simp only [verifyBatchSimulated, hv, if_true, hrec, Prod.mk.injEq]
      refine ⟨trivial, ?_⟩
      have hj1 : j - 1 + 1 + 1 = j + 1 := by omega
      have hsplit : List.range (j + 1) = 0 :: (List.range (j - 1 + 1)).map (· + 1) := by
        rw [← hj1, List.range_succ_eq_map]
      rw [hsplit]
      simp only [List.map_cons, List.map_map]
      congr 1
      apply List.map_congr_left
      intro i _
      show (s + 1 + i) % pool.length = (s + (i + 1)) % pool.length
      have harith : s + 1 + i = s + (i + 1) := by omega
      rw [harith]

/-- Claim C2: simulated batch verification succeeds iff every one of the `n`
cyclically-indexed elements `pool[(start + i) % poolSize]`, `i < n`, verifies;
the checks run sequentially in order of increasing `i` (the trace lists the
indices in that order); and on the first failing element it stops, verifying
exactly the elements at offsets `0..j` and none after. -/
theorem verifyBatchSimulated_spec {α : Type} [Inhabited α] (ver : α → Bool)
    (pool : List α) (s n : Nat) (hpool : pool ≠ []) :
    ((verifyBatchSimulated ver pool s n).1 = true ↔
      ∀ i < n, ver (pool.getD ((s + i) % pool.length) default) = true) ∧
    ((∀ i < n, ver (pool.getD ((s + i) % pool.length) default) = true) →
      verifyBatchSimulated ver pool s n =
        (true, (List.range n).map fun i => (s + i) % pool.length)) ∧
    (∀ j, j < n →
      (∀ i < j, ver (pool.getD ((s + i) % pool.length) default) = true) →
      ver (pool.getD ((s + j) % pool.length) default) = false →
      verifyBatchSimulated ver pool s n =
        (false, (List.range (j + 1)).map fun i => (s + i) % pool.length)) :=
  ⟨verifyBatchSimulated_true_iff ver pool n s,
   verifyBatchSimulated_trace_all ver pool n s,
   fun j hj hgood hbad =>
     verifyBatchSimulated_shortcircuit ver pool n s j hj hgood hbad⟩

/-- Witness for C2 at a concrete input: pool `[true, false]` with identity
verification, start 1, batch size 3; the element at index `(1+0) % 2 = 1`
fails, so the batch returns false having verified only that one element. -/
theorem verifyBatchSimulated_spec_witness :
    verifyBatchSimulated (fun b : Bool => b) [true, false] 1 3 = (false, [1]) := by
  have h := (verifyBatchSimulated_spec (fun b : Bool => b) [true, false] 1 3
      (by simp)).2.2 0 (by omega) (by intro i hi; omega) (by decide)
  simpa using h

theorem runVerifLoop_finished {α : Type} [Inhabited α] (ver : α → Bool)
    (pool : List α) (ts : Nat → Nat) (endTime : Nat) :
    ∀ (fuel count c : Nat) (tr : List Nat),
      runVerifLoop ver pool ts endTime fuel count = (.finished c, tr) →
      count ≤ c ∧ (∀ i, count ≤ i → i < c → ts (i + 1) < endTime) ∧
      endTime ≤ ts (c + 1) ∧
      tr = (List.range' count (c - count)).map (· % pool.length) := by
  intro fuel
  induction fuel with
  | zero =>
    intro count c tr h
    simp only [runVerifLoop, Prod.mk.injEq] at h
    exact BenchOut.noConfusion h.1
  | succ fuel ih =>
    intro count c tr h
    simp only [runVerifLoop] at h
    by_cases htime : ts (count + 1) < endTime
    · rw [if_pos htime] at h
      by_cases hlen : pool.length = 0
      · rw [if_pos hlen] at h
        simp only [Prod.mk.injEq] at h
        exact BenchOut.noConfusion h.1
      · rw [if_neg hlen] at h
        by_cases hv : ver (pool.getD (count % pool.length) default) = true
        · rw [if_pos hv] at h
          simp only [Prod.mk.injEq] at h
          obtain ⟨h1, h2⟩ := h
          have hrec : runVerifLoop ver pool ts endTime fuel (count + 1) =
              (.finished c,
                (runVerifLoop ver pool ts endTime fuel (count + 1)).2) := by
            rw [← h1]
          obtain ⟨ha, hb, hc, hd⟩ := ih (count + 1) c _ hrec
          refine ⟨by omega, ?_, hc, ?_⟩
          · intro i hi1 hi2
            rcases Nat.lt_or_ge i (count + 1) with hlt | hge
            · have : i = count := by omega
              rwa [this]
            · exact hb i hge hi2
          · rw [← h2, hd]
            have hcc : c - count = (c - (count + 1)) + 1 := by omega
            rw [hcc, List.range'_succ]
            simp
        · rw [if_neg hv] at h
          simp only [Prod.mk.injEq] at h
          exact BenchOut.noConfusion h.1
    · rw [if_neg htime] at h
      simp only [Prod.mk.injEq, BenchOut.finished.injEq] at h
      obtain ⟨h1, h2⟩ := h
      subst h1
      refine ⟨le_rfl, by omega, Nat.le_of_not_lt htime, ?_⟩
      simp [← h2]

theorem runVerifLoop_abort {α : Type} [Inhabited α] (ver : α → Bool)
    (pool : List α) (ts : Nat → Nat) (endTime : Nat) (hpool : pool ≠ []) :
    ∀ (j fuel count : Nat), j < fuel →
      (∀ i ≤ j, ts (count + i + 1) < endTime) →
      (∀ i < j, ver (pool.getD ((count + i) % pool.length) default) = true) →
      ver (pool.getD ((count + j) % pool.length) default) = false →
      runVerifLoop ver pool ts endTime fuel count =
        (.assertFail (count + j),
          (List.range' count (j + 1)).map (· % pool.length)) := by
  intro j
  induction j with
  | zero =>
    intro fuel count hfuel hts hgood hbad
    obtain ⟨fuel, rfl⟩ : ∃ f, fuel = f + 1 := ⟨fuel - 1, by omega⟩
    have htime : ts (count + 1) < endTime := by
      have := hts 0 (by omega)
      simpa using this
    have hlen : ¬ pool.length = 0 := by
      simpa using List.length_pos.mpr hpool |>.ne'
    have hv : ver (pool.getD (count % pool.length) default) = false := by
      have h := hbad
      rwa [Nat.add_zero] at h
    simp only [runVerifLoop, if_pos htime, if_neg hlen, hv,
      Bool.false_eq_true, if_false]
    simp
  | succ j ih =>
    intro fuel count hfuel hts hgood hbad
    obtain ⟨fuel, rfl⟩ : ∃ f, fuel = f + 1 := ⟨fuel - 1, by omega⟩
    have htime : ts (count + 1) < endTime := by
      have := hts 0 (by omega)
      simpa using this
    have hlen : ¬ pool.length = 0 := by
      simpa using List.length_pos.mpr hpool |>.ne'
    have hv : ver (pool.getD (count % pool.length) default) = true := by
      have h := hgood 0 (by omega)
      rwa [Nat.add_zero] at h
    have hrec := ih fuel (count + 1) (by omega)
      (by intro i hi
          have := hts (i + 1) (by omega)
          have harith : count + (i + 1) = count + 1 + i := by omega
          rwa [harith] at this)
      (by intro i hi
          have := hgood (i + 1) (by omega)
          have harith : count + (i + 1) = count + 1 + i := by omega
          rwa [harith] at this)
      (by have := hbad
          have harith : count + (j + 1) = count + 1 + j := by omega
          rwa [harith] at this)
    simp only [runVerifLoop, if_pos htime, if_neg hlen, hv, if_true, hrec]
    have harith : count + 1 + j = count + (j + 1) := by omega
    have hsplit : List.range' count (j + 1 + 1) =
        count :: List.range' (count + 1) (j + 1) := List.range'_succ count (j + 1) 1
    rw [harith, hsplit]
    simp

theorem verifyBatchSimulated_inbounds {α : Type} [Inhabited α]
    (ver : α → Bool) (pool : List α) (hpool : pool ≠ []) :
    ∀ (n s x : Nat), x ∈ (verifyBatchSimulated ver pool s n).2 →
      x < pool.length := by
  have hlen : 0 < pool.length := List.length_pos.mpr hpool
  intro n
  induction n with
  | zero => intro s x hx; simp [verifyBatchSimulated] at hx
  | succ n ih =>
    intro s x hx
    by_cases hv : ver (pool.getD (s % pool.length) default) = true
    · simp only [verifyBatchSimulated, hv, if_true, List.mem_cons] at hx
      rcases hx with rfl | hx
      · exact Nat.mod_lt _ hlen
      · exact ih (s + 1) x hx
    · simp only [verifyBatchSimulated, hv, Bool.false_eq_true, if_false,
        List.mem_singleton] at hx
      subst hx
      exact Nat.mod_lt _ hlen

theorem runVerifLoop_inbounds {α : Type} [Inhabited α] (ver : α → Bool)
    (pool : List α) (ts : Nat → Nat) (endTime : Nat) (hpool : pool ≠ []) :
    ∀ (fuel count x : Nat),
      x ∈ (runVerifLoop ver pool ts endTime fuel count).2 →
      x < pool.length := by
  have hlen : 0 < pool.length := List.length_pos.mpr hpool
  intro fuel
  induction fuel with
  | zero => intro count x hx; simp [runVerifLoop] at hx
  | succ fuel ih =>
    intro count x hx
    by_cases htime : ts (count + 1) < endTime
    · by_cases hv : ver (pool.getD (count % pool.length) default) = true
      · simp only [runVerifLoop, if_pos htime, if_neg hlen.ne', hv, if_true,
          List.mem_cons] at hx
        rcases hx with rfl | hx
        · exact Nat.mod_lt _ hlen
        · exact ih (count + 1) x hx
      · simp only [runVerifLoop, if_pos htime, if_neg hlen.ne', hv,
          Bool.false_eq_true, if_false, List.mem_singleton] at hx
        subst hx
        exact Nat.mod_lt _ hlen
    · simp only [runVerifLoop, if_neg htime] at hx
      simp at hx

theorem batchTrace_zero (len bs start : Nat) : batchTrace len bs start 0 = [] := by
  simp [batchTrace]

theorem batchTrace_succ_left (len bs start m : Nat) :
    batchTrace len bs start (m + 1) =
      ((List.range bs).map fun i => (start + i) % len) ++
        batchTrace len bs (start + bs) m := by
  unfold batchTrace
  rw [List.range_succ_eq_map, List.flatMap_cons, List.flatMap_map]
  congr 1
  congr 1
  funext j
  congr 1
  funext i
  congr 1
  simp only [Nat.succ_eq_add_one]
  ring

theorem verifyBatchSimulated_trace_of_true {α : Type} [Inhabited α]
    (ver : α → Bool) (pool : List α) (n s : Nat)
    (h : (verifyBatchSimulated ver pool s n).1 = true) :
    (verifyBatchSimulated ver pool s n).2 =
      (List.range n).map fun i => (s + i) % pool.length := by
  have hall := (verifyBatchSimulated_true_iff ver pool n s).mp h
  rw [verifyBatchSimulated_trace_all ver pool n s hall]

theorem runBatchLoop_finished {α : Type} [Inhabited α] (ver : α → Bool)
    (pool : List α) (ts : Nat → Nat) (endTime bs : Nat) :
    ∀ (fuel k count c : Nat) (tr : List Nat),
      runBatchLoop ver pool ts endTime bs fuel k count = (.finished c, tr) →
      ∃ m, c = count + bs * m ∧
        (∀ j < m, ts (k + j + 1) < endTime) ∧
        endTime ≤ ts (k + m + 1) ∧
        tr = batchTrace pool.length bs count m := by
  intro fuel
  induction fuel with
  | zero =>
    intro k count c tr h
    simp only [runBatchLoop, Prod.mk.injEq] at h
    exact BenchOut.noConfusion h.1
  | succ fuel ih =>
    intro k count c tr h
    simp only [runBatchLoop] at h
    by_cases htime : ts (k + 1) < endTime
    · rw [if_pos htime] at h
      by_cases hlen : pool.length = 0
      · rw [if_pos hlen] at h
        simp only [Prod.mk.injEq] at h
        exact BenchOut.noConfusion h.1
      · rw [if_neg hlen] at h
        by_cases hb :
            (verifyBatchSimulated ver pool (count % pool.length) bs).1 = true
        · rw [if_pos hb] at h
          simp only [Prod.mk.injEq] at h
          obtain ⟨h1, h2⟩ := h
          have hrec :
              runBatchLoop ver pool ts endTime bs fuel (k + 1) (count + bs) =
                (.finished c,
                  (runBatchLoop ver pool ts endTime bs fuel (k + 1)
                    (count + bs)).2) := by
            rw [← h1]
          obtain ⟨m, hm1, hm2, hm3, hm4⟩ := ih (k + 1) (count + bs) c _ hrec
          refine ⟨m + 1, by rw [hm1, Nat.mul_succ]; ring, ?_, ?_, ?_⟩
          · intro j hj
            rcases Nat.eq_zero_or_pos j with rfl | hpos
            · simpa using htime
            · have := hm2 (j - 1) (by omega)
              have harith : k + 1 + (j - 1) + 1 = k + j + 1 := by omega
              rwa [harith] at this
          · have harith : k + 1 + m + 1 = k + (m + 1) + 1 := by omega
            rwa [harith] at hm3
          · rw [← h2, hm4, batchTrace_succ_left]
            congr 1
            rw [verifyBatchSimulated_trace_of_true ver pool bs _ hb]
            apply List.map_congr_left
            intro i _
            exact Nat.mod_add_mod count pool.length i
        · rw [if_neg hb] at h
          simp only [Prod.mk.injEq] at h
          exact BenchOut.noConfusion h.1
    · rw [if_neg htime] at h
      simp only [Prod.mk.injEq, BenchOut.finished.injEq] at h
      obtain ⟨h1, h2⟩ := h
      subst h1
      refine ⟨0, by simp, by intro j hj; omega, ?_, ?_⟩
      · simpa using Nat.le_of_not_lt htime
      · rw [← h2, batchTrace_zero]

theorem runBatchLoop_abort {α : Type} [Inhabited α] (ver : α → Bool)
    (pool : List α) (ts : Nat → Nat) (endTime bs : Nat) (hpool : pool ≠ []) :
    ∀ (m fuel k count : Nat), m < fuel →
      (∀ j ≤ m, ts (k + j + 1) < endTime) →
      (∀ j < m,
        (verifyBatchSimulated ver pool ((count + bs * j) % pool.length)
          bs).1 = true) →
      (verifyBatchSimulated ver pool ((count + bs * m) % pool.length)
        bs).1 = false →
      runBatchLoop ver pool ts endTime bs fuel k count =
        (.assertFail (count + bs * m),
          batchTrace pool.length bs count m ++
            (verifyBatchSimulated ver pool ((count + bs * m) % pool.length)
              bs).2) := by
  have hlen : ¬ pool.length = 0 := by
    simpa using List.length_pos.mpr hpool |>.ne'
  intro m
  induction m with
  | zero =>
    intro fuel k count hfuel hts hgood hbad
    obtain ⟨fuel, rfl⟩ : ∃ f, fuel = f + 1 := ⟨fuel - 1, by omega⟩
    have htime : ts (k + 1) < endTime := by
      have := hts 0 (by omega)
      simpa using this
    have hb :
        ¬ (verifyBatchSimulated ver pool (count % pool.length) bs).1 = true := by
      have h := hbad
      rw [Nat.mul_zero, Nat.add_zero] at h
      simp [h]
    simp only [runBatchLoop, if_pos htime, if_neg hlen, if_neg hb]
    rw [Nat.mul_zero, Nat.add_zero, batchTrace_zero, List.nil_append]
  | succ m ih =>
    intro fuel k count hfuel hts hgood hbad
    obtain ⟨fuel, rfl⟩ : ∃ f, fuel = f + 1 := ⟨fuel - 1, by omega⟩
    have htime : ts (k + 1) < endTime := by
      have := hts 0 (by omega)
      simpa using this
    have hb :
        (verifyBatchSimulated ver pool (count % pool.length) bs).1 = true := by
      have h := hgood 0 (by omega)
      rwa [Nat.mul_zero, Nat.add_zero] at h
    have hrec := ih fuel (k + 1) (count + bs) (by omega)
      (by intro j hj
          have := hts (j + 1) (by omega)
          have harith : k + (j + 1) + 1 = k + 1 + j + 1 := by omega
          rwa [harith] at this)
      (by intro j hj
          have := hgood (j + 1) (by omega)
          have harith : count + bs * (j + 1) = count + bs + bs * j := by
            rw [Nat.mul_succ]; ring
          rwa [harith] at this)
      (by have := hbad
          have harith : count + bs * (m + 1) = count + bs + bs * m := by
            rw [Nat.mul_succ]; ring
          rwa [harith] at this)
    simp only [runBatchLoop, if_pos htime, if_neg hlen, if_pos hb, hrec]
    have harith : count + bs + bs * m = count + bs * (m + 1) := by
      rw [Nat.mul_succ]; ring
    rw [harith]
    congr 1
    rw [batchTrace_succ_left, List.append_assoc]
    congr 1
    rw [verifyBatchSimulated_trace_of_true ver pool bs _ hb]
    apply List.map_congr_left
    intro i _
    exact Nat.mod_add_mod count pool.length i

theorem runBatchLoop_inbounds {α : Type} [Inhabited α] (ver : α → Bool)
    (pool : List α) (ts : Nat → Nat) (endTime bs : Nat) (hpool : pool ≠ []) :
    ∀ (fuel k count x : Nat),
      x ∈ (runBatchLoop ver pool ts endTime bs fuel k count).2 →
      x < pool.length := by
  have hlen : 0 < pool.length := List.length_pos.mpr hpool
  intro fuel
  induction fuel with
  | zero => intro k count x hx; simp [runBatchLoop] at hx
  | succ fuel ih =>
    intro k count x hx
    by_cases htime : ts (k + 1) < endTime
    · by_cases hb :
          (verifyBatchSimulated ver pool (count % pool.length) bs).1 = true
      · simp only [runBatchLoop, if_pos htime, if_neg hlen.ne', if_pos hb,
          List.mem_append] at hx
        rcases hx with hx | hx
        · exact verifyBatchSimulated_inbounds ver pool hpool bs _ x hx
        · exact ih (k + 1) (count + bs) x hx
      · simp only [runBatchLoop, if_pos htime, if_neg hlen.ne',
          if_neg hb] at hx
        exact verifyBatchSimulated_inbounds ver pool hpool bs _ x hx
    · simp only [runBatchLoop, if_neg htime] at hx
      simp at hx

/-- Claim C3: for every non-empty list of samples `calculate_stats` returns
mean, median and (population) variance, where the mean times the length is
the sum, the median comes from the ascending sorted permutation of the
samples (average of the two middle entries for even count, the middle entry
for odd count), and the variance times the length is the sum of squared
deviations (division by `n`, not `n - 1`; the source's `std_dev` is the
square root of this variance).  Concretely, `[1,2,3,4]` gives mean `5/2`,
median `5/2` and variance `5/4` (standard deviation `sqrt 1.25`), and `[5]`
gives mean `5`, median `5` and variance `0` (standard deviation `0`). -/
theorem calculate_stats_spec :
    (∀ results : List ℚ, results ≠ [] →
      ∃ m med v, calculate_stats results = some (m, med, v) ∧
        m * (results.length : ℚ) = results.sum ∧
        (∃ sorted : List ℚ, sorted.Perm results ∧ sorted.Sorted (· ≤ ·) ∧
          med = if results.length % 2 = 0 then
              (sorted.getD (results.length / 2 - 1) 0 +
                sorted.getD (results.length / 2) 0) / 2
            else sorted.getD (results.length / 2) 0) ∧
        v * (results.length : ℚ) = (results.map fun x => (x - m) ^ 2).sum) ∧
    calculate_stats [1, 2, 3, 4] = some (5/2, 5/2, 5/4) ∧
    calculate_stats [5] = some (5, 5, 0) := by
  refine ⟨?_, ?_, ?_⟩
  · intro results hne
    have hn : 0 < results.length := List.length_pos.mpr hne
    have hnq : (results.length : ℚ) ≠ 0 := Nat.cast_ne_zero.mpr hn.ne'
    have hlen : (results.insertionSort (· ≤ ·)).length = results.length :=
      List.length_insertionSort _ _
    have hperm : (results.insertionSort (· ≤ ·)).Perm results :=
      List.perm_insertionSort _ _
    have hsorted : (results.insertionSort (· ≤ ·)).Sorted (· ≤ ·) :=
      List.sorted_insertionSort _ _
    have hvar : ((results.map fun v =>
          (results.sum / (results.length : ℚ) - v) *
            (results.sum / (results.length : ℚ) - v)).sum /
          (results.length : ℚ)) * (results.length : ℚ) =
        (results.map fun x =>
          (x - results.sum / (results.length : ℚ)) ^ 2).sum := by
      rw [div_mul_cancel₀ _ hnq]
      congr 1
      apply List.map_congr_left
      intro x _
      ring
    by_cases hpar : results.length % 2 = 0
    · have h2 : 2 ≤ results.length := by omega
      have hg1 : (results.insertionSort (· ≤ ·))[results.length / 2 - 1]? =
          some ((results.insertionSort (· ≤ ·)).getD
            (results.length / 2 - 1) 0) := by
        rw [List.getElem?_eq_getElem (by rw [hlen]; omega),
          List.getD_eq_getElem _ _ (by rw [hlen]; omega)]
      have hg2 : (results.insertionSort (· ≤ ·))[results.length / 2]? =
          some ((results.insertionSort (· ≤ ·)).getD
            (results.length / 2) 0) := by
        rw [List.getElem?_eq_getElem (by rw [hlen]; omega),
          List.getD_eq_getElem _ _ (by rw [hlen]; omega)]
      have hcomp : calculate_stats results =
          some (results.sum / (results.length : ℚ),
            ((results.insertionSort (· ≤ ·)).getD (results.length / 2 - 1) 0 +
              (results.insertionSort (· ≤ ·)).getD (results.length / 2) 0) / 2,
            (results.map fun v =>
              (results.sum / (results.length : ℚ) - v) *
                (results.sum / (results.length : ℚ) - v)).sum /
              (results.length : ℚ)) := by
        simp only [calculate_stats]
        rw [hlen, if_pos hpar, if_neg (by omega : ¬ results.length / 2 = 0)]
        rw [hg1, hg2]
      refine ⟨_, _, _, hcomp, div_mul_cancel₀ _ hnq,
        ⟨results.insertionSort (· ≤ ·), hperm, hsorted, by rw [if_pos hpar]⟩,
        hvar⟩
    · have hg2 : (results.insertionSort (· ≤ ·))[results.length / 2]? =
          some ((results.insertionSort (· ≤ ·)).getD
            (results.length / 2) 0) := by
        rw [List.getElem?_eq_getElem (by rw [hlen]; omega),
          List.getD_eq_getElem _ _ (by rw [hlen]; omega)]
      have hcomp : calculate_stats results =
          some (results.sum / (results.length : ℚ),
            (results.insertionSort (· ≤ ·)).getD (results.length / 2) 0,
            (results.map fun v =>
              (results.sum / (results.length : ℚ) - v) *
                (results.sum / (results.length : ℚ) - v)).sum /
              (results.length : ℚ)) := by
        simp only [calculate_stats]
        rw [hlen, if_neg hpar]
        rw [hg2]
      refine ⟨_, _, _, hcomp, div_mul_cancel₀ _ hnq,
        ⟨results.insertionSort (· ≤ ·), hperm, hsorted, by rw [if_neg hpar]⟩,
        hvar⟩
  · norm_num [calculate_stats, List.insertionSort, List.orderedInsert]
  · norm_num [calculate_stats, List.insertionSort, List.orderedInsert]

/-- Witness for C3: the general statement applied to the concrete input
`[1, 2, 3, 4]`, discharging the non-emptiness hypothesis. -/
theorem calculate_stats_spec_witness :
    ∃ m med v, calculate_stats [1, 2, 3, 4] = some (m, med, v) ∧
      m * ((([1, 2, 3, 4] : List ℚ)).length : ℚ) = ([1, 2, 3, 4] : List ℚ).sum ∧
      (∃ sorted : List ℚ, sorted.Perm [1, 2, 3, 4] ∧ sorted.Sorted (· ≤ ·) ∧
        med = if ([1, 2, 3, 4] : List ℚ).length % 2 = 0 then
            (sorted.getD (([1, 2, 3, 4] : List ℚ).length / 2 - 1) 0 +
              sorted.getD (([1, 2, 3, 4] : List ℚ).length / 2) 0) / 2
          else sorted.getD (([1, 2, 3, 4] : List ℚ).length / 2) 0) ∧
      v * ((([1, 2, 3, 4] : List ℚ)).length : ℚ) =
        (([1, 2, 3, 4] : List ℚ).map fun x => (x - m) ^ 2).sum :=
  calculate_stats_spec.1 [1, 2, 3, 4] (List.cons_ne_nil _ _)

/-- Counterexample for C4: on the empty input `calculate_stats` does not
yield any result value at all — the median computation `sorted[len/2 - 1]`
underflows/indexes out of bounds and the function panics (modelled `none`),
so no non-finite statistic is ever returned. -/
theorem calculate_stats_empty_counterexample :
    ¬ ∃ v : ℚ × ℚ × ℚ, calculate_stats [] = some v := by
  have h : calculate_stats ([] : List ℚ) = none := by
    norm_num [calculate_stats, List.insertionSort]
  rintro ⟨v, hv⟩
  rw [h] at hv
  exact Option.noConfusion hv

/-- Claim C4 as amended: the empty input is not rejected with an explicit
error, and the division by zero in the mean happens first, but the function
then panics at the median index computation (`sorted[sorted.len()/2 - 1]`
with length 0) before returning, so the run aborts instead of producing a
non-finite statistic. -/
theorem calculate_stats_empty_panics : calculate_stats ([] : List ℚ) = none := by
  norm_num [calculate_stats, List.insertionSort]

theorem batchTrace_length (len bs : Nat) :
    ∀ (m start : Nat), (batchTrace len bs start m).length = m * bs := by
  intro m
  induction m with
  | zero => intro start; simp [batchTrace]
  | succ m ih =>
    intro start
    rw [batchTrace_succ_left]
    simp only [List.length_append, List.length_map, List.length_range, ih]
    ring

/-- Claim C5: in both benchmark loops the deadline is the fixed value
`ts 0 + duration` computed once at loop entry; the loop condition compares
the current clock reading against it before every iteration, so every unit
of work (one verification, one full batch) begins strictly before the
deadline and the loop stops at the first reading at or past the deadline —
at most the one in-flight unit overshoots.  For a positive duration, when
the first check observes the same instant as the deadline computation, at
least one unit completes: the individual count is at least 1 and the batch
count at least `batch_size`. -/
theorem benchmark_deadline_spec {α : Type} [Inhabited α] (ver : α → Bool)
    (pool : List α) (ts : Nat → Nat) (d : Nat) (hd : 0 < d)
    (hts : ts 1 = ts 0) :
    (∀ fuel c tr,
      run_verification_benchmark ver pool ts d fuel = (.finished c, tr) →
      (∀ i < c, ts (i + 1) < ts 0 + d) ∧ ts 0 + d ≤ ts (c + 1) ∧ 1 ≤ c) ∧
    (∀ bs fuel c tr,
      run_batch_verification_benchmark ver pool ts d bs fuel =
        (.finished c, tr) →
      ∃ m, c = bs * m ∧ 1 ≤ m ∧ (∀ j < m, ts (j + 1) < ts 0 + d) ∧
        ts 0 + d ≤ ts (m + 1) ∧ bs ≤ c) := by
  constructor
  · intro fuel c tr h
    obtain ⟨h1, h2, h3, h4⟩ :=
      runVerifLoop_finished ver pool ts (ts 0 + d) fuel 0 c tr h
    refine ⟨fun i hi => h2 i (Nat.zero_le _) hi, h3, ?_⟩
    rcases Nat.eq_zero_or_pos c with rfl | hc
    · norm_num at h3
      omega
    · exact hc
  · intro bs fuel c tr h
    obtain ⟨m, hm1, hm2, hm3, hm4⟩ :=
      runBatchLoop_finished ver pool ts (ts 0 + d) bs fuel 0 0 c tr h
    have hm : 1 ≤ m := by
      rcases Nat.eq_zero_or_pos m with rfl | hm
      · norm_num at hm3
        omega
      · exact hm
    have hbc : bs ≤ c := by
      have hmul : bs * 1 ≤ bs * m := Nat.mul_le_mul_left bs hm
      omega
    refine ⟨m, by omega, hm, ?_, ?_, hbc⟩
    · intro j hj
      have := hm2 j hj
      simpa using this
    · simpa using hm3

/-- Witness for C5 at a concrete input: a clock that reads 0 for the
deadline computation and the first check, then jumps to 10, with duration 1;
the individual run completes exactly one verification and the batch run
(batch size 2) completes exactly one batch of two. -/
theorem benchmark_deadline_spec_witness :
    (∃ c tr, run_verification_benchmark (fun _ : Unit => true) [()]
        (fun k => if k ≤ 1 then 0 else 10) 1 2 = (.finished c, tr) ∧
      1 ≤ c) ∧
    (∃ c tr, run_batch_verification_benchmark (fun _ : Unit => true) [()]
        (fun k => if k ≤ 1 then 0 else 10) 1 2 2 = (.finished c, tr) ∧
      2 ≤ c) := by
  have h := benchmark_deadline_spec (fun _ : Unit => true) [()]
    (fun k => if k ≤ 1 then 0 else 10) 1 (by decide) (by decide)
  have hrun1 : run_verification_benchmark (fun _ : Unit => true) [()]
      (fun k => if k ≤ 1 then 0 else 10) 1 2 = (.finished 1, [0]) := by decide
  have hrun2 : run_batch_verification_benchmark (fun _ : Unit => true) [()]
      (fun k => if k ≤ 1 then 0 else 10) 1 2 2 = (.finished 2, [0, 0]) := by
    decide
  refine ⟨⟨1, [0], hrun1, (h.1 2 1 [0] hrun1).2.2⟩, ⟨2, [0, 0], hrun2, ?_⟩⟩
  obtain ⟨m, -, -, -, -, hbc⟩ := h.2 2 2 2 [0, 0] hrun2
  exact hbc

/-- Claim C6: the individual benchmark loop verifies
`pool[count % pool.length]` on each iteration and increments the count by
exactly one per successful verification, returning the final count: the
verification trace is exactly `[0 % n, 1 % n, ..., (c-1) % n]`.  For a pool
of 100, a returned count of at least 101 forces index 0 to have been visited
at least twice. -/
theorem runIndividual_cycling {α : Type} [Inhabited α] (ver : α → Bool)
    (pool : List α) (ts : Nat → Nat) (d fuel c : Nat) (tr : List Nat)
    (hpool : pool ≠ [])
    (h : run_verification_benchmark ver pool ts d fuel = (.finished c, tr)) :
    tr = (List.range c).map (· % pool.length) ∧ tr.length = c ∧
    (pool.length = 100 → 101 ≤ c → 2 ≤ tr.count 0) := by
  obtain ⟨-, -, -, h4⟩ :=
    runVerifLoop_finished ver pool ts (ts 0 + d) fuel 0 c tr h
  have htr : tr = (List.range c).map (· % pool.length) := by
    rw [h4, Nat.sub_zero, ← List.range_eq_range']
  refine ⟨htr, by rw [htr]; simp, ?_⟩
  intro hlen hc
  rw [htr, hlen]
  have hsplit : List.range c = List.range 101 ++ (List.range c).drop 101 := by
    conv_lhs => rw [← List.take_append_drop 101 (List.range c)]
    rw [List.take_range]
    congr 2
    omega
  rw [hsplit, List.map_append, List.count_append]
  have hbase : ((List.range 101).map (· % 100)).count 0 = 2 := by decide
  omega

/-- Witness for C6 at a concrete input: singleton pool, clock 0-0-10,
duration 1; one verification completes with trace `[0]`. -/
theorem runIndividual_cycling_witness :
    [0] = (List.range 1).map (· % ([()] : List Unit).length) ∧
    ([0] : List Nat).length = 1 ∧
    (([()] : List Unit).length = 100 → 101 ≤ 1 → 2 ≤ ([0] : List Nat).count 0) :=
  runIndividual_cycling (fun _ : Unit => true) [()]
    (fun k => if k ≤ 1 then 0 else 10) 1 2 1 [0] (by simp) (by decide)

/-- Claim C7: the batch benchmark loop advances its cycling start index by
exactly `batch_size` per iteration (batch `j` starts at accumulated count
`batch_size * j`, reduced modulo the pool size), accumulates exactly
`batch_size` into the completed count per successful batch, and returns the
accumulated count: the count is `batch_size * m` for `m` completed batches,
the trace is exactly the `m` concatenated batch traces, and its length
equals the returned count. -/
theorem runBatch_accounting {α : Type} [Inhabited α] (ver : α → Bool)
    (pool : List α) (ts : Nat → Nat) (d bs fuel c : Nat) (tr : List Nat)
    (hpool : pool ≠ [])
    (h : run_batch_verification_benchmark ver pool ts d bs fuel =
      (.finished c, tr)) :
    ∃ m, c = bs * m ∧ tr = batchTrace pool.length bs 0 m ∧ tr.length = c := by
  obtain ⟨m, hm1, -, -, hm4⟩ :=
    runBatchLoop_finished ver pool ts (ts 0 + d) bs fuel 0 0 c tr h
  refine ⟨m, by omega, hm4, ?_⟩
  rw [hm4, batchTrace_length, Nat.mul_comm]
  omega

/-- Witness for C7 at a concrete input: singleton pool, clock 0-0-10,
duration 1, batch size 2; one batch of two completes with trace `[0, 0]`. -/
theorem runBatch_accounting_witness :
    ∃ m, 2 = 2 * m ∧
      ([0, 0] : List Nat) = batchTrace ([()] : List Unit).length 2 0 m ∧
      ([0, 0] : List Nat).length = 2 :=
  runBatch_accounting (fun _ : Unit => true) [()]
    (fun k => if k ≤ 1 then 0 else 10) 1 2 2 2 [0, 0] (by simp) (by decide)

/-- Claim C8: in both benchmark loops any verification outcome other than
success hits the `assert!` and aborts the run immediately: the trace ends
with the failing element (no later verification is ever attempted, within
the batch or in a later iteration), no count is returned (the outcome is
`assertFail`, never `finished`), and the failure is not retried or
skipped. -/
theorem benchmark_abort_on_failure {α : Type} [Inhabited α] (ver : α → Bool)
    (pool : List α) (ts : Nat → Nat) (d : Nat) (hpool : pool ≠ []) :
    (∀ j fuel, j < fuel →
      (∀ i ≤ j, ts (i + 1) < ts 0 + d) →
      (∀ i < j, ver (pool.getD (i % pool.length) default) = true) →
      ver (pool.getD (j % pool.length) default) = false →
      run_verification_benchmark ver pool ts d fuel =
        (.assertFail j, (List.range (j + 1)).map (· % pool.length)) ∧
      ∀ c tr, run_verification_benchmark ver pool ts d fuel ≠
        (.finished c, tr)) ∧
    (∀ m bs fuel, m < fuel →
      (∀ j ≤ m, ts (j + 1) < ts 0 + d) →
      (∀ j < m,
        (verifyBatchSimulated ver pool ((bs * j) % pool.length) bs).1 =
          true) →
      (verifyBatchSimulated ver pool ((bs * m) % pool.length) bs).1 =
        false →
      run_batch_verification_benchmark ver pool ts d bs fuel =
        (.assertFail (bs * m),
          batchTrace pool.length bs 0 m ++
            (verifyBatchSimulated ver pool ((bs * m) % pool.length) bs).2) ∧
      ∀ c tr, run_batch_verification_benchmark ver pool ts d bs fuel ≠
        (.finished c, tr)) := by
  constructor
  · intro j fuel hj hts hgood hbad
    have habort := runVerifLoop_abort ver pool ts (ts 0 + d) hpool j fuel 0 hj
      (by intro i hi; simpa using hts i hi)
      (by intro i hi
          have := hgood i hi
          simpa using this)
      (by simpa using hbad)
    have hmain : run_verification_benchmark ver pool ts d fuel =
        (.assertFail j, (List.range (j + 1)).map (· % pool.length)) := by
      rw [run_verification_benchmark, habort, List.range_eq_range']
      simp
    refine ⟨hmain, ?_⟩
    intro c tr hC
    rw [hmain] at hC
    simp at hC
  · intro m bs fuel hm hts hgood hbad
    have habort := runBatchLoop_abort ver pool ts (ts 0 + d) bs hpool m fuel 0 0
      hm
      (by intro j hj; simpa using hts j hj)
      (by intro j hj
          have := hgood j hj
          simpa using this)
      (by simpa using hbad)
    have hmain : run_batch_verification_benchmark ver pool ts d bs fuel =
        (.assertFail (bs * m),
          batchTrace pool.length bs 0 m ++
            (verifyBatchSimulated ver pool ((bs * m) % pool.length) bs).2) := by
      rw [run_batch_verification_benchmark, habort]
      simp
    refine ⟨hmain, ?_⟩
    intro c tr hC
    rw [hmain] at hC
    simp at hC

/-- Witness for C8 at a concrete input: pool `[false]` with identity
verification fails at the very first element of both loops, which abort with
`assertFail 0` after that single verification. -/
theorem benchmark_abort_on_failure_witness :
    (run_verification_benchmark (fun b : Bool => b) [false]
        (fun _ => 0) 1 1 = (.assertFail 0, [0]) ∧
      ∀ c tr, run_verification_benchmark (fun b : Bool => b) [false]
        (fun _ => 0) 1 1 ≠ (.finished c, tr)) ∧
    (run_batch_verification_benchmark (fun b : Bool => b) [false]
        (fun _ => 0) 1 1 1 = (.assertFail 0,
          batchTrace 1 1 0 0 ++
            (verifyBatchSimulated (fun b : Bool => b) [false]
              ((1 * 0) % ([false] : List Bool).length) 1).2) ∧
      ∀ c tr, run_batch_verification_benchmark (fun b : Bool => b) [false]
        (fun _ => 0) 1 1 1 ≠ (.finished c, tr)) := by
  have h := benchmark_abort_on_failure (fun b : Bool => b) [false]
    (fun _ => 0) 1 (by simp)
  have h1 := h.1 0 1 (by omega) (by intro i _; simp)
    (by intro i hi; omega) (by decide)
  have h2 := h.2 0 1 1 (by omega) (by intro j _; simp)
    (by intro j hj; omega) (by decide)
  refine ⟨⟨?_, h1.2⟩, ⟨?_, h2.2⟩⟩
  · have := h1.1
    simpa using this
  · have := h2.1
    simpa using this

/-- Claim C10: both loops implicitly require a non-empty pool: with one,
every index in either loop's verification trace is strictly below the pool
length, so indexing stays in bounds; with an empty pool, as soon as the loop
body is entered (a first clock check below the deadline) both loops hit the
remainder-by-zero panic immediately, with an empty verification trace — no
verification is ever performed. -/
theorem pool_indexing_spec {α : Type} [Inhabited α] (ver : α → Bool)
    (ts : Nat → Nat) (d : Nat) :
    (∀ pool : List α, pool ≠ [] →
      (∀ fuel x, x ∈ (run_verification_benchmark ver pool ts d fuel).2 →
        x < pool.length) ∧
      (∀ bs fuel x,
        x ∈ (run_batch_verification_benchmark ver pool ts d bs fuel).2 →
        x < pool.length)) ∧
    (ts 1 < ts 0 + d →
      (∀ fuel, run_verification_benchmark ver ([] : List α) ts d (fuel + 1) =
        (.idxPanic 0, [])) ∧
      (∀ bs fuel,
        run_batch_verification_benchmark ver ([] : List α) ts d bs
          (fuel + 1) = (.idxPanic 0, []))) := by
  constructor
  · intro pool hpool
    exact ⟨fun fuel x hx =>
        runVerifLoop_inbounds ver pool ts (ts 0 + d) hpool fuel 0 x hx,
      fun bs fuel x hx =>
        runBatchLoop_inbounds ver pool ts (ts 0 + d) bs hpool fuel 0 0 x hx⟩
  · intro ht
    constructor
    · intro fuel
      simp [run_verification_benchmark, runVerifLoop, ht]
    · intro bs fuel
      simp [run_batch_verification_benchmark, runBatchLoop, ht]

/-- Witness for C10 at a concrete input: with the singleton pool `[()]`
every traced index is below 1, and with the empty pool both loops panic
immediately with an empty trace. -/
theorem pool_indexing_spec_witness :
    (∀ x, x ∈ (run_verification_benchmark (fun _ : Unit => true) [()]
        (fun _ => 0) 1 3).2 → x < 1) ∧
    run_verification_benchmark (fun _ : Unit => true) ([] : List Unit)
      (fun _ => 0) 1 3 = (.idxPanic 0, []) ∧
    run_batch_verification_benchmark (fun _ : Unit => true) ([] : List Unit)
      (fun _ => 0) 1 2 3 = (.idxPanic 0, []) := by
  have h := pool_indexing_spec (fun _ : Unit => true) (fun _ => 0) 1
  refine ⟨?_, ?_, ?_⟩
  · intro x hx
    simpa using (h.1 [()] (by simp)).1 3 x hx
  · have := (h.2 (by simp)).1 2
    simpa using this
  · have := (h.2 (by simp)).2 2 2
    simpa using this

/-- Claim C9: every generated attestation has its index in `[0, 65536)` (the
drawn 64-bit value reduced modulo 65536), while slot and the two epochs
range over the full unsigned 64-bit range (any `u64` value is attainable)
and each 32-byte hash field is filled with (arbitrary attainable) byte
values below 256. -/
theorem generate_random_attestation_spec :
    (∀ g : Nat → Nat,
      (generate_random_attestation g).index < 65536 ∧
      (generate_random_attestation g).slot < 2 ^ 64 ∧
      (generate_random_attestation g).source_epoch < 2 ^ 64 ∧
      (generate_random_attestation g).target_epoch < 2 ^ 64 ∧
      ∀ i : Fin 32,
        (generate_random_attestation g).beacon_block_root i < 256 ∧
        (generate_random_attestation g).source_root i < 256 ∧
        (generate_random_attestation g).target_root i < 256) ∧
    (∀ vs vse vte : Nat, vs < 2 ^ 64 → vse < 2 ^ 64 → vte < 2 ^ 64 →
      ∃ g, (generate_random_attestation g).slot = vs ∧
        (generate_random_attestation g).source_epoch = vse ∧
        (generate_random_attestation g).target_epoch = vte) ∧
    (∀ vi : Nat, vi < 65536 →
      ∃ g, (generate_random_attestation g).index = vi) ∧
    (∀ b1 b2 b3 : Fin 32 → Nat,
      (∀ i, b1 i < 256) → (∀ i, b2 i < 256) → (∀ i, b3 i < 256) →
      ∃ g, (generate_random_attestation g).beacon_block_root = b1 ∧
        (generate_random_attestation g).source_root = b2 ∧
        (generate_random_attestation g).target_root = b3) := by
  refine ⟨?_, ?_, ?_, ?_⟩
  · intro g
    refine ⟨Nat.mod_lt _ (by norm_num), Nat.mod_lt _ (by norm_num),
      Nat.mod_lt _ (by norm_num), Nat.mod_lt _ (by norm_num), ?_⟩
    intro i
    exact ⟨Nat.mod_lt _ (by norm_num), Nat.mod_lt _ (by norm_num),
      Nat.mod_lt _ (by norm_num)⟩
  · intro vs vse vte hvs hvse hvte
    refine ⟨fun k => if k = 96 then vs else if k = 98 then vse
      else if k = 99 then vte else 0, ?_, ?_, ?_⟩
    · show (if (96 : Nat) = 96 then vs else if (96 : Nat) = 98 then vse
        else if (96 : Nat) = 99 then vte else 0) % 2 ^ 64 = vs
      norm_num
      norm_num at hvs
      exact hvs
    · show (if (98 : Nat) = 96 then vs else if (98 : Nat) = 98 then vse
        else if (98 : Nat) = 99 then vte else 0) % 2 ^ 64 = vse
      norm_num
      norm_num at hvs
      exact hvse
    · show (if (99 : Nat) = 96 then vs else if (99 : Nat) = 98 then vse
        else if (99 : Nat) = 99 then vte else 0) % 2 ^ 64 = vte
      norm_num
      norm_num at hvte
      exact hvte
  · intro vi hvi
    refine ⟨fun _ => vi, ?_⟩
    show vi % 2 ^ 64 % 65536 = vi
    have h1 : vi % 2 ^ 64 = vi := Nat.mod_eq_of_lt (lt_trans hvi (by norm_num))
    rw [h1, Nat.mod_eq_of_lt hvi]
  · intro b1 b2 b3 hb1 hb2 hb3
    refine ⟨fun k => if hk : k < 32 then b1 ⟨k, hk⟩
      else if hk2 : k < 64 then b2 ⟨k - 32, by omega⟩
      else if hk3 : k < 96 then b3 ⟨k - 64, by omega⟩ else 0, ?_, ?_, ?_⟩
    · funext i
      simp only [generate_random_attestation]
      rw [dif_pos i.isLt]
      exact Nat.mod_eq_of_lt (hb1 i)
    · funext i
      simp only [generate_random_attestation]
      rw [dif_neg (by omega : ¬ 32 + i.val < 32),
        dif_pos (show 32 + i.val < 64 by omega)]
      have hfin : (⟨32 + i.val - 32, by omega⟩ : Fin 32) = i :=
        Fin.ext (by simp)
      rw [hfin]
      exact Nat.mod_eq_of_lt (hb2 i)
    · funext i
      simp only [generate_random_attestation]
      rw [dif_neg (by omega : ¬ 64 + i.val < 32),
        dif_neg (by omega : ¬ 64 + i.val < 64),
        dif_pos (show 64 + i.val < 96 by omega)]
      have hfin : (⟨64 + i.val - 64, by omega⟩ : Fin 32) = i :=
        Fin.ext (by simp)
      rw [hfin]
      exact Nat.mod_eq_of_lt (hb3 i)

/-- Witness for C9 at concrete inputs: the bounds at the constant stream 3,
a generator hitting slot 5, source epoch 6, target epoch 7, one hitting
index 60000, and one hitting the constant-zero hash fields. -/
theorem generate_random_attestation_spec_witness :
    (generate_random_attestation (fun _ => 3)).index < 65536 ∧
    (∃ g, (generate_random_attestation g).slot = 5 ∧
      (generate_random_attestation g).source_epoch = 6 ∧
      (generate_random_attestation g).target_epoch = 7) ∧
    (∃ g, (generate_random_attestation g).index = 60000) ∧
    (∃ g, (generate_random_attestation g).beacon_block_root = (fun _ => 0) ∧
      (generate_random_attestation g).source_root = (fun _ => 0) ∧
      (generate_random_attestation g).target_root = (fun _ => 0)) :=
  ⟨(generate_random_attestation_spec.1 (fun _ => 3)).1,
   generate_random_attestation_spec.2.1 5 6 7 (by norm_num) (by norm_num)
     (by norm_num),
   generate_random_attestation_spec.2.2.1 60000 (by norm_num),
   generate_random_attestation_spec.2.2.2 (fun _ => 0) (fun _ => 0)
     (fun _ => 0) (fun _ => by norm_num) (fun _ => by norm_num)
     (fun _ => by norm_num)⟩
